import Mathlib

/-!
Shallow embedding of the WebSocket broadcast hub in `src/main.rs`
(async-tungstenite + bevy chat server).

The embedded code is `handle_connection` and `run`:

* `Message` mirrors `tungstenite::protocol::Message` as used by the server
  (`is_close`, `to_text`); `to_text` on a binary payload performs
  `str::from_utf8`, modelled by `utf8Decode`.
* a peer's outbound channel (`futures::channel::mpsc::unbounded`) is a FIFO
  queue together with a `closed` flag (receiver dropped);
  `unbounded_send` fails exactly when the channel is closed.
* the peer map (`HashMap<SocketAddr, Tx>`) is an association list from
  addresses (modelled as `Nat`) to channels.
* panics arising from `.unwrap()` / `.expect()` are modelled by
  `Except Unit`, with `.error ()` standing for a panic of the task.
-/

namespace Hub

/-- Connection identity: stands for `SocketAddr`. -/
abbrev Addr := Nat

/-- Whether a byte is a UTF-8 continuation byte (`0x80..=0xBF`). -/
def isUtf8Cont (b : Nat) : Bool := 0x80 ≤ b && b ≤ 0xBF

/-- UTF-8 decoding of a byte sequence, mirroring Rust's `str::from_utf8`
validity rules (RFC 3629 well-formed byte sequences: no overlong forms, no
surrogate code points, nothing above `U+10FFFF`).  Returns `none` exactly when
`str::from_utf8` returns `Err`. -/
def utf8Decode : List Nat → Option (List Char)
  | [] => some []
  | b0 :: bs =>
    if b0 ≤ 0x7F then
      (utf8Decode bs).map (fun cs => Char.ofNat b0 :: cs)
    else if 0xC2 ≤ b0 && b0 ≤ 0xDF then
      match bs with
      | b1 :: bs2 =>
        if isUtf8Cont b1 then
          (utf8Decode bs2).map
            (fun cs => Char.ofNat ((b0 - 0xC0) * 0x40 + (b1 - 0x80)) :: cs)
        else none
      | _ => none
    else if b0 = 0xE0 then
      match bs with
      | b1 :: b2 :: bs3 =>
        if (0xA0 ≤ b1 && b1 ≤ 0xBF) && isUtf8Cont b2 then
          (utf8Decode bs3).map (fun cs =>
            Char.ofNat ((b0 - 0xE0) * 0x1000 + (b1 - 0x80) * 0x40 + (b2 - 0x80)) :: cs)
        else none
      | _ => none
    else if (0xE1 ≤ b0 && b0 ≤ 0xEC) || (0xEE ≤ b0 && b0 ≤ 0xEF) then
      match bs with
      | b1 :: b2 :: bs3 =>
        if isUtf8Cont b1 && isUtf8Cont b2 then
          (utf8Decode bs3).map (fun cs =>
            Char.ofNat ((b0 - 0xE0) * 0x1000 + (b1 - 0x80) * 0x40 + (b2 - 0x80)) :: cs)
        else none
      | _ => none
    else if b0 = 0xED then
      match bs with
      | b1 :: b2 :: bs3 =>
        if (0x80 ≤ b1 && b1 ≤ 0x9F) && isUtf8Cont b2 then
          (utf8Decode bs3).map (fun cs =>
            Char.ofNat ((b0 - 0xE0) * 0x1000 + (b1 - 0x80) * 0x40 + (b2 - 0x80)) :: cs)
        else none
      | _ => none
    else if b0 = 0xF0 then
      match bs with
      | b1 :: b2 :: b3 :: bs4 =>
        if (0x90 ≤ b1 && b1 ≤ 0xBF) && isUtf8Cont b2 && isUtf8Cont b3 then
          (utf8Decode bs4).map (fun cs =>
            Char.ofNat ((b0 - 0xF0) * 0x40000 + (b1 - 0x80) * 0x1000 +
              (b2 - 0x80) * 0x40 + (b3 - 0x80)) :: cs)
        else none
      | _ => none
    else if 0xF1 ≤ b0 && b0 ≤ 0xF3 then
      match bs with
      | b1 :: b2 :: b3 :: bs4 =>
        if isUtf8Cont b1 && isUtf8Cont b2 && isUtf8Cont b3 then
          (utf8Decode bs4).map (fun cs =>
            Char.ofNat ((b0 - 0xF0) * 0x40000 + (b1 - 0x80) * 0x1000 +
              (b2 - 0x80) * 0x40 + (b3 - 0x80)) :: cs)
        else none
      | _ => none
    else if b0 = 0xF4 then
      match bs with
      | b1 :: b2 :: b3 :: bs4 =>
        if (0x80 ≤ b1 && b1 ≤ 0x8F) && isUtf8Cont b2 && isUtf8Cont b3 then
          (utf8Decode bs4).map (fun cs =>
            Char.ofNat ((b0 - 0xF0) * 0x40000 + (b1 - 0x80) * 0x1000 +
              (b2 - 0x80) * 0x40 + (b3 - 0x80)) :: cs)
        else none
      | _ => none
    else none

/-- Wire message, mirroring `tungstenite::protocol::Message`. -/
inductive Message where
  | text (s : String)
  | binary (data : List Nat)
  | ping (data : List Nat)
  | pong (data : List Nat)
  | close (frame : Option String)
deriving DecidableEq

namespace Message

/-- Mirrors `Message::is_close`. -/
def is_close : Message → Bool
  | close _ => true
  | _ => false

/-- Mirrors `Message::to_text`: `Ok` with the string for text frames;
`str::from_utf8` on the payload for binary, ping and pong frames, so it fails
exactly on non-UTF-8 bytes; for close frames, `Ok` with the empty string or
the close reason.  `none` models the `Err` case, on which
`msg.to_text().unwrap()` in `handle_connection` panics. -/
def to_text : Message → Option String
  | text s => some s
  | binary d => (utf8Decode d).map (fun cs => String.mk cs)
  | ping d => (utf8Decode d).map (fun cs => String.mk cs)
  | pong d => (utf8Decode d).map (fun cs => String.mk cs)
  | close none => some ""
  | close (some reason) => some reason

end Message

/-- Receiving half state of one peer's unbounded mpsc channel: the FIFO queue
of enqueued messages, and whether the receiving side has been dropped. -/
structure Channel where
  queue : List Message
  closed : Bool
deriving DecidableEq

/-- Mirrors `UnboundedSender::unbounded_send`: appends to the FIFO queue, or
fails when the receiver has been dropped (channel torn down). -/
def unbounded_send (c : Channel) (m : Message) : Except Unit Channel :=
  if c.closed then .error () else .ok { c with queue := c.queue ++ [m] }

/-- The peer map contents: `HashMap<SocketAddr, Tx>` as an association list. -/
abbrev Registry := List (Addr × Channel)

/-- Lookup of a peer's channel in the peer map. -/
def lookupChan : Registry → Addr → Option Channel
  | [], _ => none
  | (b, c) :: rest, a => if b = a then some c else lookupChan rest a

/-- The broadcast loop of `handle_connection` (lines 96-104): iterate over the
peer map entries, skip the sender (`peer_addr != &&addr`), and
`unbounded_send(msg.clone()).unwrap()` to every other peer.  The `.unwrap()`
panics (`.error ()`) at the first recipient whose channel is torn down. -/
def sendAll : Registry → Addr → Message → Except Unit Registry
  | [], _, _ => .ok []
  | (a, c) :: rest, sender, msg =>
    if a = sender then
      (sendAll rest sender msg).map (fun r => (a, c) :: r)
    else
      match unbounded_send c msg with
      | .error _ => .error ()
      | .ok c2 => (sendAll rest sender msg).map (fun r => (a, c2) :: r)

/-- The body of the `try_for_each` closure (lines 88-106): the
`println!`'s `msg.to_text().unwrap()` first (panics on non-text payloads),
then the guarded broadcast loop `sendAll`. -/
def broadcastStep (reg : Registry) (sender : Addr) (msg : Message) :
    Except Unit Registry :=
  match msg.to_text with
  | none => .error ()
  | some _ => sendAll reg sender msg

/-- The inbound-to-broadcast direction (lines 81-109): `try_filter` drops
close-type messages (they are never passed on), `try_for_each` runs
`broadcastStep` on each remaining message, stopping at the first panic. -/
def broadcast_incoming (reg : Registry) (addr : Addr) (msgs : List Message) :
    Except Unit Registry :=
  (msgs.filter (fun m => !m.is_close)).foldlM
    (fun r m => broadcastStep r addr m) reg

/-- The expected result of one successful broadcast: every entry other than
the sender gets `msg` appended to its queue, the sender's entry is unchanged. -/
def enqueueExceptSender (reg : Registry) (sender : Addr) (msg : Message) :
    Registry :=
  reg.map (fun p =>
    if p.1 = sender then p else (p.1, { p.2 with queue := p.2.queue ++ [msg] }))

/-- Atomic actions of the broadcast closure involving the peer-map mutex:
acquiring the guard (line 94), one `unbounded_send` to a recipient
(line 102), and the guard being dropped. -/
inductive LockAction where
  | lock
  | send (a : Addr)
  | unlock
deriving DecidableEq

/-- Whether a lock action is a send. -/
def LockAction.isSend : LockAction → Bool
  | send _ => true
  | _ => false

/-- The mutex-action trace of one broadcast invocation, read off lines 94-106:
`peer_map.lock().unwrap()` binds the guard `peers`, every
`unbounded_send` in the loop runs with `peers` still in scope, and the guard
is dropped only when the closure body ends, after the loop. -/
def broadcastActions (reg : Registry) (sender : Addr) : List LockAction :=
  LockAction.lock ::
    (reg.filterMap (fun p =>
      if p.1 = sender then none else some (LockAction.send p.1)) ++
     [LockAction.unlock])

/-- Actions taken while the guard is held: the prefix of the trace strictly
before the first `unlock`. -/
def whileLocked (tr : List LockAction) : List LockAction :=
  tr.takeWhile (fun a => a ≠ LockAction.unlock)

/-- Result of one accept attempt of the listener (`listener.accept().await`). -/
inductive AcceptResult where
  | ok (conn : Nat)
  | err
deriving DecidableEq

/-- The accept loop of `run` (lines 130-132):
`while let Ok((stream, addr)) = listener.accept().await` spawns a handler per
successful accept and exits the loop at the first failed accept.  Returns the
connections for which a handler task is spawned, in order. -/
def accept_loop : List AcceptResult → List Nat
  | [] => []
  | .ok c :: rest => c :: accept_loop rest
  | .err :: _ => []

/-- The entry point `run` (lines 118-137): `try_socket.expect("Failed to
bind")` panics when the bind fails (`.error ()`), otherwise the accept loop
runs and `run` returns `Ok(())` with the spawned connections. -/
def run (bindOk : Bool) (accepts : List AcceptResult) :
    Except Unit (List Nat) :=
  if bindOk then .ok (accept_loop accepts) else .error ()

/-- Successful accepts before the first failed one. -/
def oksBeforeErr : List AcceptResult → List Nat
  | [] => []
  | .ok c :: rest => c :: oksBeforeErr rest
  | .err :: _ => []

/-- Outcome of the handshake-and-register prefix of `handle_connection`
(lines 71-78): the peer map afterwards, and whether the Registered state was
reached. -/
structure ConnOutcome where
  registry : Registry
  registered : Bool
deriving DecidableEq

/-- Insertion into the peer map, mirroring `HashMap::insert` (line 78): the
binding for `addr` is replaced if present, added otherwise. -/
def insertPeer (reg : Registry) (addr : Addr) (c : Channel) : Registry :=
  if (reg.map Prod.fst).contains addr then
    reg.map (fun p => if p.1 = addr then (addr, c) else p)
  else
    reg ++ [(addr, c)]

/-- Lines 71-78 of `handle_connection`: `accept_async(...).expect(...)`
panics on a handshake failure — before the peer map is ever touched — and
only on success is `(tx, rx)` created and `insert`ed under the lock. -/
def connectPhase (hsOk : Bool) (reg : Registry) (addr : Addr) (ch : Channel) :
    ConnOutcome :=
  if hsOk then
    { registry := insertPeer reg addr ch, registered := true }
  else
    { registry := reg, registered := false }

/-- Which relay direction won the `future::select` (line 111), and how it
ended. -/
inductive DirectionEnd where
  | inboundClose
  | inboundReadError
  | outboundQueueClosed
  | outboundWriteError
deriving DecidableEq

/-- Removal from the peer map, mirroring `HashMap::remove` (line 115):
drops the binding for `addr` when present, no-op otherwise. -/
def removePeer (reg : Registry) (addr : Addr) : Registry :=
  reg.filter (fun p => p.1 ≠ addr)

/-- Lines 113-115 of `handle_connection`: after `future::select` returns —
whichever direction ended, however it ended — the handler runs the same
straight-line cleanup `peer_map.lock().unwrap().remove(&addr)`. -/
def afterRelay (reg : Registry) (addr : Addr) (_d : DirectionEnd) : Registry :=
  removePeer reg addr

/-- How many times the cleanup removal of line 115 executes for a connection
whose inbound direction processes `msgs` (lines 81-115).  When
`broadcast_incoming` completes without panicking, `future::select` returns
and the straight-line lines 113-115 run the removal once — likewise when the
outbound direction is the one that ends the select (then `msgs` are the
inbound messages processed up to that point).  When a message panics the
`try_for_each` closure (the `to_text` unwrap at line 92 or the send unwrap at
line 103), the panic unwinds the `handle_connection` future and line 115
never runs. -/
def cleanupCount (reg : Registry) (addr : Addr) (msgs : List Message) : Nat :=
  match broadcast_incoming reg addr msgs with
  | .ok _ => 1
  | .error _ => 0

/-! The `PeerMap` is `Arc<Mutex<HashMap<..>>>`.  `std::sync::Mutex` poisoning
semantics: a panic while the guard is held marks the mutex poisoned, and every
later `lock()` returns `Err(PoisonError)`.  All three lock sites in
`handle_connection` (lines 78, 94, 115) call `.lock().unwrap()`, so on a
poisoned mutex each of them panics. -/

/-- A `Mutex<HashMap<SocketAddr, Tx>>` with its poison flag. -/
structure LockedMap where
  poisoned : Bool
  peers : Registry
deriving DecidableEq

/-- Mirrors `peer_map.lock().unwrap()`: panics (`.error ()`) iff the mutex is
poisoned, otherwise yields the guarded map. -/
def lock_unwrap (m : LockedMap) : Except Unit Registry :=
  if m.poisoned then .error () else .ok m.peers

/-- The registration lock site, line 78:
`peer_map.lock().unwrap().insert(addr, tx)`. -/
def register_access (m : LockedMap) (addr : Addr) (ch : Channel) :
    Except Unit LockedMap :=
  (lock_unwrap m).map (fun reg => { m with peers := insertPeer reg addr ch })

/-- The broadcast lock site, lines 94-106: `peer_map.lock().unwrap()` then
the send loop while the guard is held.  A panic of an `unbounded_send(..)
.unwrap()` happens with the guard in scope, so it poisons the mutex; the map
contents behind a poisoned mutex are never observable again through these
accessors, so they are left as they were. -/
def broadcast_access (m : LockedMap) (sender : Addr) (msg : Message) :
    Except Unit Unit × LockedMap :=
  match lock_unwrap m with
  | .error _ => (.error (), m)
  | .ok reg =>
    match sendAll reg sender msg with
    | .error _ => (.error (), { m with poisoned := true })
    | .ok reg2 => (.ok (), { m with peers := reg2 })

/-- The cleanup lock site, line 115:
`peer_map.lock().unwrap().remove(&addr)`. -/
def deregister_access (m : LockedMap) (addr : Addr) :
    Except Unit LockedMap :=
  (lock_unwrap m).map (fun reg => { m with peers := removePeer reg addr })

/-! Lifecycle state machine of the hub, read off the control flow of
`handle_connection` and `run`: a connection is accepted (task spawned,
handshaking), then either the handshake panics (task ends, map untouched) or
the handler inserts its sender into the peer map (line 78, Registered), and a
registered connection eventually runs the cleanup (line 115) and its task
ends.  The registry here tracks only the key set of the peer map. -/

/-- Phase of one live connection task. -/
inductive ConnPhase where
  | handshaking
  | registered
deriving DecidableEq

/-- Global state: the peer-map key set and the live connection tasks. -/
structure HubState where
  registry : List Addr
  conns : List (Addr × ConnPhase)
deriving DecidableEq

/-- Initial state: empty map, no connections (line 122). -/
def initState : HubState := { registry := [], conns := [] }

/-- Phase of the live connection at `a`, if any. -/
def lookupPhase : List (Addr × ConnPhase) → Addr → Option ConnPhase
  | [], _ => none
  | (b, p) :: rest, a => if b = a then some p else lookupPhase rest a

/-- Drop the live connection at `a`. -/
def eraseConn (l : List (Addr × ConnPhase)) (a : Addr) :
    List (Addr × ConnPhase) :=
  l.filter (fun p => p.1 ≠ a)

/-- Set the phase of the live connection at `a`. -/
def setPhase (l : List (Addr × ConnPhase)) (a : Addr) (ph : ConnPhase) :
    List (Addr × ConnPhase) :=
  l.map (fun p => if p.1 = a then (p.1, ph) else p)

/-- Lifecycle events: a connection is accepted and its handler spawned
(line 131), its handshake fails (line 73 `.expect` panics), its handshake
succeeds and it registers (lines 71-78), or it terminates and cleans up
(lines 111-115). -/
inductive Event where
  | accept (a : Addr)
  | hsFail (a : Addr)
  | hsOk (a : Addr)
  | terminate (a : Addr)
deriving DecidableEq

/-- One lifecycle step.  Each event fires only from the phase the program
structure allows (a socket address identifies at most one live connection at
a time); out-of-order events leave the state unchanged. -/
def step (st : HubState) : Event → HubState
  | .accept a =>
    if lookupPhase st.conns a = none then
      { st with conns := st.conns ++ [(a, .handshaking)] }
    else st
  | .hsFail a =>
    if lookupPhase st.conns a = some .handshaking then
      { st with conns := eraseConn st.conns a }
    else st
  | .hsOk a =>
    if lookupPhase st.conns a = some .handshaking then
      { registry := st.registry ++ [a], conns := setPhase st.conns a .registered }
    else st
  | .terminate a =>
    if lookupPhase st.conns a = some .registered then
      { registry := st.registry.filter (fun b => b ≠ a),
        conns := eraseConn st.conns a }
    else st

/-- Run the hub from the initial state through a sequence of events. -/
def exec (evs : List Event) : HubState := evs.foldl step initState

/-- Peers currently past Registered and not yet Terminated. -/
def registeredConns (st : HubState) : List (Addr × ConnPhase) :=
  st.conns.filter (fun p => p.2 = ConnPhase.registered)

/-- The registry invariant of the spec: no duplicate identities anywhere, and
an entry exists for `a` iff the connection at `a` is registered. -/
def Inv (st : HubState) : Prop :=
  (st.conns.map Prod.fst).Nodup ∧ st.registry.Nodup ∧
    ∀ a, a ∈ st.registry ↔ lookupPhase st.conns a = some .registered

/-- The expected result of broadcasting a whole message sequence: every entry
other than the sender gets the sequence appended in order. -/
def enqueueAllExceptSender (reg : Registry) (sender : Addr)
    (msgs : List Message) : Registry :=
  reg.map (fun p =>
    if p.1 = sender then p else (p.1, { p.2 with queue := p.2.queue ++ msgs }))

/-- No queue anywhere in the peer map holds a close-type message. -/
def noCloseInQueues (reg : Registry) : Bool :=
  reg.all (fun p => p.2.queue.all (fun m => !m.is_close))

/-- Whether an accept attempt succeeded. -/
def isOkAccept : AcceptResult → Bool
  | .ok _ => true
  | .err => false

/-- The connection of a successful accept attempt. -/
def connOf : AcceptResult → Option Nat
  | .ok c => some c
  | .err => none

/-! Lemmas about the broadcast send loop. -/

theorem sendAll_ok_of_open (reg : Registry) (sender : Addr) (msg : Message)
    (h : ∀ p ∈ reg, p.1 ≠ sender → p.2.closed = false) :
    sendAll reg sender msg = .ok (enqueueExceptSender reg sender msg) := by
  induction reg with
  | nil => simp [sendAll, enqueueExceptSender]
  | cons p rest ih =>
    obtain ⟨a, c⟩ := p
    have hrest : ∀ p ∈ rest, p.1 ≠ sender → p.2.closed = false := by
      intro q hq
      exact h q (List.mem_cons_of_mem _ hq)
    by_cases ha : a = sender
    · simp [sendAll, ha, ih hrest, enqueueExceptSender, Except.map]
    · have hc : c.closed = false := h (a, c) (List.mem_cons_self _ _) ha
      simp [sendAll, ha, unbounded_send, hc, ih hrest, enqueueExceptSender,
        Except.map]

theorem sendAll_error_of_closed (reg : Registry) (sender : Addr)
    (msg : Message) (p : Addr × Channel) (hp : p ∈ reg) (hs : p.1 ≠ sender)
    (hc : p.2.closed = true) :
    sendAll reg sender msg = .error () := by
  induction reg with
  | nil => cases hp
  | cons q rest ih =>
    obtain ⟨a, c⟩ := q
    rcases List.mem_cons.mp hp with heq | hmem
    · subst heq
      simp only [sendAll]
      rw [if_neg hs]
      simp only at hc
      simp [unbounded_send, hc]
    · by_cases ha : a = sender
      · simp [sendAll, ha, ih hmem, Except.map]
      · cases hcc : c.closed with
        | true => simp [sendAll, ha, unbounded_send, hcc]
        | false => simp [sendAll, ha, unbounded_send, hcc, ih hmem, Except.map]

theorem lookupChan_mapVal (reg : Registry) (h : Addr → Channel → Channel)
    (b : Addr) :
    lookupChan (reg.map (fun p => (p.1, h p.1 p.2))) b =
      (lookupChan reg b).map (h b) := by
  induction reg with
  | nil => rfl
  | cons p rest ih =>
    obtain ⟨a, c⟩ := p
    by_cases hab : a = b
    · subst hab
      simp [lookupChan]
    · simp [lookupChan, hab, ih]

theorem enqueueExceptSender_eq_mapVal (reg : Registry) (sender : Addr)
    (msg : Message) :
    enqueueExceptSender reg sender msg =
      reg.map (fun p =>
        (p.1, if p.1 = sender then p.2 else ⟨p.2.queue ++ [msg], p.2.closed⟩)) := by
  unfold enqueueExceptSender
  apply List.map_congr_left
  intro p _
  obtain ⟨a, c⟩ := p
  by_cases hp : a = sender
  · simp [hp]
  · simp [hp]

theorem lookupChan_enqueueExceptSender_self (reg : Registry) (sender : Addr)
    (msg : Message) :
    lookupChan (enqueueExceptSender reg sender msg) sender =
      lookupChan reg sender := by
  rw [enqueueExceptSender_eq_mapVal,
    lookupChan_mapVal reg
      (fun a c => if a = sender then c else ⟨c.queue ++ [msg], c.closed⟩)]
  cases lookupChan reg sender <;> simp

theorem lookupChan_enqueueExceptSender_other (reg : Registry) (sender : Addr)
    (msg : Message) (b : Addr) (hb : b ≠ sender) :
    lookupChan (enqueueExceptSender reg sender msg) b =
      (lookupChan reg b).map
        (fun c => { c with queue := c.queue ++ [msg] }) := by
  rw [enqueueExceptSender_eq_mapVal,
    lookupChan_mapVal reg
      (fun a c => if a = sender then c else ⟨c.queue ++ [msg], c.closed⟩)]
  cases lookupChan reg b <;> simp [hb]

/-! Lemmas about the inbound-to-broadcast fold. -/

theorem enqueueAllExceptSender_eq_mapVal (reg : Registry) (sender : Addr)
    (msgs : List Message) :
    enqueueAllExceptSender reg sender msgs =
      reg.map (fun p =>
        (p.1, if p.1 = sender then p.2 else ⟨p.2.queue ++ msgs, p.2.closed⟩)) := by
  unfold enqueueAllExceptSender
  apply List.map_congr_left
  intro p _
  obtain ⟨a, c⟩ := p
  by_cases hp : a = sender
  · simp [hp]
  · simp [hp]

theorem enqueueAllExceptSender_nil (reg : Registry) (sender : Addr) :
    enqueueAllExceptSender reg sender [] = reg := by
  rw [enqueueAllExceptSender_eq_mapVal]
  have h : ∀ p ∈ reg, (p.1,
      if p.1 = sender then p.2 else (⟨p.2.queue ++ [], p.2.closed⟩ : Channel)) = p := by
    intro p _
    obtain ⟨a, c⟩ := p
    by_cases hp : a = sender <;> simp [hp]
  rw [List.map_congr_left h]
  simp

theorem enqueueAllExceptSender_enqueue (reg : Registry) (sender : Addr)
    (msg : Message) (msgs : List Message) :
    enqueueAllExceptSender (enqueueExceptSender reg sender msg) sender msgs =
      enqueueAllExceptSender reg sender (msg :: msgs) := by
  rw [enqueueExceptSender_eq_mapVal, enqueueAllExceptSender_eq_mapVal,
    enqueueAllExceptSender_eq_mapVal, List.map_map]
  apply List.map_congr_left
  intro p _
  obtain ⟨a, c⟩ := p
  by_cases hp : a = sender
  · simp [hp, Function.comp]
  · simp [hp, Function.comp]

theorem openExceptSender_enqueue (reg : Registry) (sender : Addr)
    (msg : Message)
    (h : ∀ p ∈ reg, p.1 ≠ sender → p.2.closed = false) :
    ∀ p ∈ enqueueExceptSender reg sender msg, p.1 ≠ sender →
      p.2.closed = false := by
  intro p hp hne
  rw [enqueueExceptSender_eq_mapVal] at hp
  rcases List.mem_map.mp hp with ⟨q, hq, rfl⟩
  simp only at hne ⊢
  by_cases hqs : q.1 = sender
  · exact absurd hqs hne
  · simp [hqs, h q hq hne]

theorem broadcastStep_ok_of_open (reg : Registry) (sender : Addr)
    (msg : Message) (hmt : (Message.to_text msg).isSome = true)
    (hopen : ∀ p ∈ reg, p.1 ≠ sender → p.2.closed = false) :
    broadcastStep reg sender msg =
      .ok (enqueueExceptSender reg sender msg) := by
  unfold broadcastStep
  rcases ht : Message.to_text msg with _ | t
  · rw [ht] at hmt
    simp at hmt
  · exact sendAll_ok_of_open reg sender msg hopen

theorem foldlM_broadcastStep_ok (sender : Addr) (msgs : List Message) :
    ∀ reg : Registry,
    (∀ m ∈ msgs, (Message.to_text m).isSome = true) →
    (∀ p ∈ reg, p.1 ≠ sender → p.2.closed = false) →
    msgs.foldlM (fun r m => broadcastStep r sender m) reg =
      Except.ok (enqueueAllExceptSender reg sender msgs) := by
  induction msgs with
  | nil =>
    intro reg _ _
    simp [enqueueAllExceptSender_nil]
    rfl
  | cons m rest ih =>
    intro reg hm hopen
    have hmt : (Message.to_text m).isSome = true :=
      hm m (List.mem_cons_self _ _)
    have hrest : ∀ x ∈ rest, (Message.to_text x).isSome = true := by
      intro x hx
      exact hm x (List.mem_cons_of_mem _ hx)
    rw [List.foldlM_cons, broadcastStep_ok_of_open reg sender m hmt hopen]
    have h2 := ih (enqueueExceptSender reg sender m) hrest
      (openExceptSender_enqueue reg sender m hopen)
    simp only [Bind.bind, Except.bind]
    rw [h2, enqueueAllExceptSender_enqueue]

/-! Lemmas about close filtering, the accept loop, and the lock trace. -/

theorem sendAll_ok_queues (sender : Addr) (msg : Message) :
    ∀ reg reg2 : Registry, sendAll reg sender msg = .ok reg2 →
    ∀ p2 ∈ reg2, ∃ p ∈ reg,
      p2.2.queue = p.2.queue ∨ p2.2.queue = p.2.queue ++ [msg] := by
  intro reg
  induction reg with
  | nil =>
    intro reg2 h p2 hp2
    simp [sendAll] at h
    subst h
    cases hp2
  | cons q rest ih =>
    intro reg2 h p2 hp2
    obtain ⟨a, c⟩ := q
    by_cases ha : a = sender
    · rw [sendAll, if_pos ha] at h
      cases hr : sendAll rest sender msg with
      | error e => rw [hr] at h; cases h
      | ok r2 =>
        rw [hr] at h
        simp [Except.map] at h
        subst h
        rcases List.mem_cons.mp hp2 with rfl | hmem
        · exact ⟨(a, c), List.mem_cons_self _ _, Or.inl rfl⟩
        · rcases ih r2 hr p2 hmem with ⟨p, hp, hq⟩
          exact ⟨p, List.mem_cons_of_mem _ hp, hq⟩
    · rw [sendAll, if_neg ha] at h
      cases hc : c.closed with
      | true => simp [unbounded_send, hc] at h
      | false =>
        simp only [unbounded_send, hc, if_neg Bool.false_ne_true] at h
        cases hr : sendAll rest sender msg with
        | error e => rw [hr] at h; cases h
        | ok r2 =>
          rw [hr] at h
          simp [Except.map] at h
          subst h
          rcases List.mem_cons.mp hp2 with rfl | hmem
          · exact ⟨(a, c), List.mem_cons_self _ _, Or.inr rfl⟩
          · rcases ih r2 hr p2 hmem with ⟨p, hp, hq⟩
            exact ⟨p, List.mem_cons_of_mem _ hp, hq⟩

theorem sendAll_ok_noClose (reg reg2 : Registry) (sender : Addr)
    (msg : Message) (hm : msg.is_close = false)
    (hreg : noCloseInQueues reg = true)
    (h : sendAll reg sender msg = .ok reg2) :
    noCloseInQueues reg2 = true := by
  rw [noCloseInQueues, List.all_eq_true]
  intro p2 hp2
  rcases sendAll_ok_queues sender msg reg reg2 h p2 hp2 with ⟨p, hp, hq | hq⟩
  · rw [List.all_eq_true]
    intro m hm2
    rw [noCloseInQueues, List.all_eq_true] at hreg
    have := hreg p hp
    rw [List.all_eq_true] at this
    exact this m (hq ▸ hm2)
  · rw [List.all_eq_true]
    intro m hm2
    rw [hq] at hm2
    rcases List.mem_append.mp hm2 with hold | hnew
    · rw [noCloseInQueues, List.all_eq_true] at hreg
      have := hreg p hp
      rw [List.all_eq_true] at this
      exact this m hold
    · rcases List.mem_singleton.mp hnew with rfl
      simp [hm]

theorem broadcastStep_ok_noClose (reg reg2 : Registry) (sender : Addr)
    (msg : Message) (hm : msg.is_close = false)
    (hreg : noCloseInQueues reg = true)
    (h : broadcastStep reg sender msg = .ok reg2) :
    noCloseInQueues reg2 = true := by
  unfold broadcastStep at h
  rcases ht : Message.to_text msg with _ | t <;> rw [ht] at h
  · cases h
  · exact sendAll_ok_noClose reg reg2 sender msg hm hreg h

theorem foldlM_broadcastStep_noClose (sender : Addr) (msgs : List Message) :
    ∀ reg reg2 : Registry,
    (∀ m ∈ msgs, m.is_close = false) →
    noCloseInQueues reg = true →
    msgs.foldlM (fun r m => broadcastStep r sender m) reg = .ok reg2 →
    noCloseInQueues reg2 = true := by
  induction msgs with
  | nil =>
    intro reg reg2 _ hreg h
    simp only [List.foldlM_nil] at h
    cases h
    exact hreg
  | cons m rest ih =>
    intro reg reg2 hm hreg h
    rw [List.foldlM_cons] at h
    cases hstep : broadcastStep reg sender m with
    | error e =>
      rw [hstep] at h
      simp [Bind.bind, Except.bind] at h
    | ok mid =>
      rw [hstep] at h
      simp only [Bind.bind, Except.bind] at h
      have hmid := broadcastStep_ok_noClose reg mid sender m
        (hm m (List.mem_cons_self _ _)) hreg hstep
      exact ih mid reg2 (fun x hx => hm x (List.mem_cons_of_mem _ hx)) hmid h

theorem accept_loop_eq (accepts : List AcceptResult) :
    accept_loop accepts = (accepts.takeWhile isOkAccept).filterMap connOf := by
  induction accepts with
  | nil => rfl
  | cons r rest ih =>
    cases r with
    | ok c => simp [accept_loop, isOkAccept, connOf, List.takeWhile, ih]
    | err => simp [accept_loop, isOkAccept, List.takeWhile]

theorem takeWhile_sends (L : List LockAction)
    (h : ∀ x ∈ L, x.isSend = true) :
    (L ++ [LockAction.unlock]).takeWhile (fun a => a ≠ LockAction.unlock) = L := by
  induction L with
  | nil => simp [List.takeWhile]
  | cons x rest ih =>
    have hx : x.isSend = true := h x (List.mem_cons_self _ _)
    have hxu : x ≠ LockAction.unlock := by
      intro heq
      rw [heq] at hx
      cases hx
    have ihr := ih (fun y hy => h y (List.mem_cons_of_mem _ hy))
    simp [List.cons_append, List.takeWhile_cons, hxu]
    simpa using ihr


theorem mem_sendList_isSend (reg : Registry) (sender : Addr) :
    ∀ x ∈ reg.filterMap (fun p =>
      if p.1 = sender then none else some (LockAction.send p.1)),
      x.isSend = true := by
  intro x hx
  rcases List.mem_filterMap.mp hx with ⟨p, _, hpx⟩
  by_cases hp : p.1 = sender
  · rw [if_pos hp] at hpx
    cases hpx
  · rw [if_neg hp] at hpx
    cases hpx
    rfl

theorem whileLocked_broadcastActions (reg : Registry) (sender : Addr) :
    whileLocked (broadcastActions reg sender) =
      LockAction.lock :: reg.filterMap (fun p =>
        if p.1 = sender then none else some (LockAction.send p.1)) := by
  unfold whileLocked broadcastActions
  rw [List.takeWhile_cons]
  have hlu : (LockAction.lock ≠ LockAction.unlock) := by
    intro h
    cases h
  rw [if_pos (by simp)]
  rw [takeWhile_sends _ (mem_sendList_isSend reg sender)]

theorem getLast_broadcastActions (reg : Registry) (sender : Addr) :
    (broadcastActions reg sender).getLast? = some LockAction.unlock := by
  unfold broadcastActions
  rw [← List.cons_append, List.getLast?_concat]

theorem countSends_whileLocked (reg : Registry) (sender : Addr) :
    ((whileLocked (broadcastActions reg sender)).filter LockAction.isSend).length =
      (reg.filter (fun p => p.1 ≠ sender)).length := by
  rw [whileLocked_broadcastActions]
  simp only [List.filter_cons]
  have : LockAction.isSend LockAction.lock = false := rfl
  rw [this]
  induction reg with
  | nil => rfl
  | cons p rest ih =>
    obtain ⟨a, c⟩ := p
    by_cases ha : a = sender
    · simp only [List.filterMap_cons, List.filter_cons, if_pos ha]
      simpa [ha] using ih
    · simpa [List.filterMap_cons, List.filter_cons, ha, LockAction.isSend] using ih

/-! Lemmas about the lifecycle state machine and its invariant. -/

theorem lookupPhase_eq_none (l : List (Addr × ConnPhase)) (a : Addr) :
    lookupPhase l a = none ↔ a ∉ l.map Prod.fst := by
  induction l with
  | nil => simp [lookupPhase]
  | cons p rest ih =>
    obtain ⟨b, ph⟩ := p
    by_cases hb : b = a
    · subst hb
      simp [lookupPhase]
    · simp [lookupPhase, hb, ih, Ne.symm hb]

theorem lookupPhase_eraseConn_self (l : List (Addr × ConnPhase)) (a : Addr) :
    lookupPhase (eraseConn l a) a = none := by
  rw [lookupPhase_eq_none]
  intro hmem
  rcases List.mem_map.mp hmem with ⟨p, hp, rfl⟩
  have h2 := (List.mem_filter.mp hp).2
  simp at h2

theorem lookupPhase_eraseConn_other (a x : Addr) (hxa : x ≠ a) :
    ∀ l, lookupPhase (eraseConn l a) x = lookupPhase l x := by
  intro l
  induction l with
  | nil => rfl
  | cons p rest ih =>
    obtain ⟨b, q⟩ := p
    simp only [eraseConn] at ih ⊢
    rw [List.filter_cons]
    by_cases hba : b = a
    · rw [if_neg (by simp [hba])]
      rw [ih]
      have hbx : ¬(b = x) := fun h => hxa (h.symm.trans hba)
      conv_rhs => rw [lookupPhase]
      rw [if_neg hbx]
    · rw [if_pos (by simp [hba])]
      by_cases hbx : b = x
      · simp only [lookupPhase]
        rw [if_pos hbx, if_pos hbx]
      · simp only [lookupPhase]
        rw [if_neg hbx, if_neg hbx, ih]


theorem lookupPhase_setPhase (a : Addr) (ph : ConnPhase) (x : Addr) :
    ∀ l, lookupPhase (setPhase l a ph) x =
      if x = a then (lookupPhase l a).map (fun _ => ph)
      else lookupPhase l x := by
  intro l
  induction l with
  | nil =>
    by_cases hx : x = a <;> simp [setPhase, lookupPhase, hx]
  | cons p rest ih =>
    obtain ⟨b, q⟩ := p
    simp only [setPhase, List.map_cons] at ih ⊢
    by_cases hba : b = a
    · rw [if_pos hba]
      by_cases hx : x = a
      · have hbx : b = x := hba.trans hx.symm
        simp [lookupPhase, hbx, hx, hba]
      · have hbx : ¬(b = x) := fun h => hx (h.symm.trans hba)
        simp [lookupPhase, hbx, hx, ih]
    · rw [if_neg hba]
      by_cases hbx : b = x
      · have hx : ¬(x = a) := fun h => hba (hbx.trans h)
        simp [lookupPhase, hbx, hx, hba]
      · simp [lookupPhase, hbx, hba, ih]


theorem lookupPhase_eq_some_iff_mem (x : Addr) (ph : ConnPhase) :
    ∀ l : List (Addr × ConnPhase), (l.map Prod.fst).Nodup →
      (lookupPhase l x = some ph ↔ (x, ph) ∈ l) := by
  intro l
  induction l with
  | nil => simp [lookupPhase]
  | cons p rest ih =>
    intro hnd
    obtain ⟨b, q⟩ := p
    simp only [List.map_cons, List.nodup_cons] at hnd
    by_cases hbx : b = x
    · subst hbx
      rw [lookupPhase, if_pos rfl]
      constructor
      · intro h
        cases h
        exact List.mem_cons_self _ _
      · intro h
        rcases List.mem_cons.mp h with heq | hmem
        · cases heq
          rfl
        · exact absurd (List.mem_map.mpr ⟨(b, ph), hmem, rfl⟩) hnd.1
    · rw [lookupPhase, if_neg hbx, ih hnd.2]
      constructor
      · exact fun h => List.mem_cons_of_mem _ h
      · intro h
        rcases List.mem_cons.mp h with heq | hmem
        · cases heq
          exact absurd rfl hbx
        · exact hmem

theorem map_fst_setPhase (l : List (Addr × ConnPhase)) (a : Addr)
    (ph : ConnPhase) :
    (setPhase l a ph).map Prod.fst = l.map Prod.fst := by
  unfold setPhase
  rw [List.map_map]
  apply List.map_congr_left
  intro p _
  by_cases hp : p.1 = a <;> simp [hp]

theorem map_fst_eraseConn_sublist (l : List (Addr × ConnPhase)) (a : Addr) :
    ((eraseConn l a).map Prod.fst).Sublist (l.map Prod.fst) :=
  List.Sublist.map Prod.fst (List.filter_sublist l)


theorem lookupPhase_append_some (l m : List (Addr × ConnPhase)) (a : Addr)
    (ph : ConnPhase) (h : lookupPhase l a = some ph) :
    lookupPhase (l ++ m) a = some ph := by
  induction l with
  | nil => cases h
  | cons p rest ih =>
    obtain ⟨b, q⟩ := p
    by_cases hb : b = a
    · rw [lookupPhase, if_pos hb] at h
      rw [List.cons_append, lookupPhase, if_pos hb]
      exact h
    · rw [lookupPhase, if_neg hb] at h
      rw [List.cons_append, lookupPhase, if_neg hb]
      exact ih h

theorem lookupPhase_append_none (l m : List (Addr × ConnPhase)) (a : Addr)
    (h : lookupPhase l a = none) :
    lookupPhase (l ++ m) a = lookupPhase m a := by
  induction l with
  | nil => rfl
  | cons p rest ih =>
    obtain ⟨b, q⟩ := p
    by_cases hb : b = a
    · rw [lookupPhase, if_pos hb] at h
      cases h
    · rw [lookupPhase, if_neg hb] at h
      rw [List.cons_append, lookupPhase, if_neg hb]
      exact ih h

theorem Inv_init : Inv initState := by
  refine ⟨List.nodup_nil, List.nodup_nil, ?_⟩
  intro a
  simp [initState, lookupPhase]

theorem Inv_step (st : HubState) (e : Event) (h : Inv st) :
    Inv (step st e) := by
  obtain ⟨hkeys, hreg, hmem⟩ := h
  cases e with
  | accept a =>
    by_cases hen : lookupPhase st.conns a = none
    · simp only [step]
      rw [if_pos hen]
      refine ⟨?_, hreg, ?_⟩
      · rw [List.map_append, List.nodup_append]
        refine ⟨hkeys, List.nodup_singleton a, ?_⟩
        intro y hy hy2
        rcases List.mem_singleton.mp hy2 with rfl
        exact (lookupPhase_eq_none st.conns y).mp hen hy
      · intro y
        cases hly : lookupPhase st.conns y with
        | none =>
          rw [lookupPhase_append_none _ _ _ hly]
          have hnot : y ∉ st.registry := by
            intro hmem2
            rw [(hmem y).mp hmem2] at hly
            cases hly
          simp only [lookupPhase]
          by_cases hay : a = y
          · rw [if_pos hay]
            simp [hnot]
          · rw [if_neg hay]
            simp [lookupPhase, hnot]
        | some p =>
          rw [lookupPhase_append_some _ _ _ _ hly]
          rw [hmem y, hly]
    · simp only [step]
      rw [if_neg hen]
      exact ⟨hkeys, hreg, hmem⟩
  | hsFail a =>
    by_cases hen : lookupPhase st.conns a = some .handshaking
    · simp only [step]
      rw [if_pos hen]
      refine ⟨(map_fst_eraseConn_sublist st.conns a).nodup hkeys, hreg, ?_⟩
      intro y
      by_cases hya : y = a
      · subst hya
        rw [lookupPhase_eraseConn_self]
        constructor
        · intro hmem2
          rw [(hmem y).mp hmem2] at hen
          cases hen
        · intro hcon
          cases hcon
      · rw [lookupPhase_eraseConn_other _ _ hya]
        exact hmem y
    · simp only [step]
      rw [if_neg hen]
      exact ⟨hkeys, hreg, hmem⟩
  | hsOk a =>
    by_cases hen : lookupPhase st.conns a = some .handshaking
    · simp only [step]
      rw [if_pos hen]
      have hanotreg : a ∉ st.registry := by
        intro hmem2
        rw [(hmem a).mp hmem2] at hen
        cases hen
      refine ⟨?_, ?_, ?_⟩
      · rw [map_fst_setPhase]
        exact hkeys
      · rw [List.nodup_append]
        refine ⟨hreg, List.nodup_singleton a, ?_⟩
        intro y hy hy2
        rcases List.mem_singleton.mp hy2 with rfl
        exact hanotreg hy
      · intro y
        rw [lookupPhase_setPhase]
        by_cases hya : y = a
        · subst hya
          rw [if_pos rfl, hen]
          simp
        · rw [if_neg hya]
          rw [List.mem_append, List.mem_singleton]
          constructor
          · intro hy
            rcases hy with hy | hy
            · exact (hmem y).mp hy
            · exact absurd hy hya
          · intro hy
            exact Or.inl ((hmem y).mpr hy)
    · simp only [step]
      rw [if_neg hen]
      exact ⟨hkeys, hreg, hmem⟩
  | terminate a =>
    by_cases hen : lookupPhase st.conns a = some .registered
    · simp only [step]
      rw [if_pos hen]
      refine ⟨(map_fst_eraseConn_sublist st.conns a).nodup hkeys,
        hreg.filter _, ?_⟩
      intro y
      by_cases hya : y = a
      · subst hya
        rw [lookupPhase_eraseConn_self]
        constructor
        · intro hmem2
          have := (List.mem_filter.mp hmem2).2
          simp at this
        · intro hcon
          cases hcon
      · rw [lookupPhase_eraseConn_other _ _ hya]
        rw [List.mem_filter]
        constructor
        · intro hy
          exact (hmem y).mp hy.1
        · intro hy
          refine ⟨(hmem y).mpr hy, ?_⟩
          simp [hya]
    · simp only [step]
      rw [if_neg hen]
      exact ⟨hkeys, hreg, hmem⟩

theorem Inv_foldl (evs : List Event) :
    ∀ st : HubState, Inv st → Inv (evs.foldl step st) := by
  induction evs with
  | nil => exact fun st h => h
  | cons e rest ih =>
    intro st h
    exact ih (step st e) (Inv_step st e h)

theorem Inv_exec (evs : List Event) : Inv (exec evs) :=
  Inv_foldl evs initState Inv_init

theorem registry_length_eq (st : HubState) (h : Inv st) :
    st.registry.length = (registeredConns st).length := by
  obtain ⟨hkeys, hreg, hmem⟩ := h
  have hrc : ((registeredConns st).map Prod.fst).Nodup := by
    refine List.Nodup.sublist ?_ hkeys
    exact List.Sublist.map Prod.fst (List.filter_sublist st.conns)
  have hmem2 : ∀ y, y ∈ st.registry ↔ y ∈ (registeredConns st).map Prod.fst := by
    intro y
    rw [hmem y, lookupPhase_eq_some_iff_mem y ConnPhase.registered st.conns hkeys]
    unfold registeredConns
    constructor
    · intro hy
      exact List.mem_map.mpr ⟨(y, .registered), List.mem_filter.mpr ⟨hy, by simp⟩, rfl⟩
    · intro hy
      rcases List.mem_map.mp hy with ⟨p, hp, rfl⟩
      have hp2 := List.mem_filter.mp hp
      have : p.2 = ConnPhase.registered := by
        have := hp2.2
        simpa using this
      have hpe : p = (p.1, ConnPhase.registered) := by
        rw [← this]
      rw [← hpe]
      exact hp2.1
  have hperm : st.registry.Perm ((registeredConns st).map Prod.fst) :=
    (List.perm_ext_iff_of_nodup hreg hrc).mpr hmem2
  rw [hperm.length_eq, List.length_map]

/-! Lemmas about cleanup removal from the peer map. -/

theorem lookupChan_eq_none (reg : Registry) (a : Addr) :
    lookupChan reg a = none ↔ a ∉ reg.map Prod.fst := by
  induction reg with
  | nil => simp [lookupChan]
  | cons p rest ih =>
    obtain ⟨b, c⟩ := p
    by_cases hb : b = a
    · subst hb
      simp [lookupChan]
    · simp [lookupChan, hb, ih, Ne.symm hb]

theorem removePeer_removePeer (reg : Registry) (a : Addr) :
    removePeer (removePeer reg a) a = removePeer reg a := by
  unfold removePeer
  rw [List.filter_filter]
  apply List.filter_congr
  intro p _
  simp

theorem removePeer_of_absent (reg : Registry) (a : Addr)
    (h : lookupChan reg a = none) :
    removePeer reg a = reg := by
  rw [lookupChan_eq_none] at h
  unfold removePeer
  apply List.filter_eq_self.mpr
  intro p hp
  simp only [decide_eq_true_eq]
  intro hpa
  exact h (List.mem_map.mpr ⟨p, hp, hpa⟩)

theorem lookupChan_removePeer_self (reg : Registry) (a : Addr) :
    lookupChan (removePeer reg a) a = none := by
  rw [lookupChan_eq_none]
  intro hmem
  rcases List.mem_map.mp hmem with ⟨p, hp, rfl⟩
  have h2 := (List.mem_filter.mp hp).2
  simp at h2

theorem lookupChan_removePeer_other (reg : Registry) (a b : Addr)
    (hb : b ≠ a) :
    lookupChan (removePeer reg a) b = lookupChan reg b := by
  induction reg with
  | nil => rfl
  | cons p rest ih =>
    obtain ⟨x, c⟩ := p
    simp only [removePeer, List.filter_cons, ne_eq, decide_not] at ih ⊢
    by_cases hxa : x = a
    · have hxb : ¬(x = b) := fun h => hb (h.symm.trans hxa)
      rw [if_neg (by simp [hxa])]
      conv_rhs => rw [lookupChan]
      rw [if_neg hxb, ih]
    · by_cases hxb : x = b
      · rw [if_pos (by simp [hxa])]
        conv_rhs => rw [lookupChan]
        rw [if_pos hxb]
        rw [lookupChan, if_pos hxb]
      · rw [if_pos (by simp [hxa])]
        conv_rhs => rw [lookupChan]
        rw [if_neg hxb]
        rw [lookupChan, if_neg hxb, ih]

/-! Lemmas showing broadcasting never adds or removes peer-map entries. -/

theorem sendAll_ok_keys (sender : Addr) (msg : Message) :
    ∀ reg reg2 : Registry, sendAll reg sender msg = .ok reg2 →
      reg2.map Prod.fst = reg.map Prod.fst := by
  intro reg
  induction reg with
  | nil =>
    intro reg2 h
    simp [sendAll] at h
    subst h
    rfl
  | cons q rest ih =>
    intro reg2 h
    obtain ⟨a, c⟩ := q
    by_cases ha : a = sender
    · rw [sendAll, if_pos ha] at h
      cases hr : sendAll rest sender msg with
      | error e => rw [hr] at h; cases h
      | ok r2 =>
        rw [hr] at h
        simp [Except.map] at h
        subst h
        simp [ih r2 hr]
    · rw [sendAll, if_neg ha] at h
      cases hc : c.closed with
      | true => simp [unbounded_send, hc] at h
      | false =>
        simp only [unbounded_send, hc, if_neg Bool.false_ne_true] at h
        cases hr : sendAll rest sender msg with
        | error e => rw [hr] at h; cases h
        | ok r2 =>
          rw [hr] at h
          simp [Except.map] at h
          subst h
          simp [ih r2 hr]

theorem broadcastStep_ok_keys (reg reg2 : Registry) (sender : Addr)
    (msg : Message) (h : broadcastStep reg sender msg = .ok reg2) :
    reg2.map Prod.fst = reg.map Prod.fst := by
  unfold broadcastStep at h
  rcases ht : Message.to_text msg with _ | t <;> rw [ht] at h
  · cases h
  · exact sendAll_ok_keys sender msg reg reg2 h

theorem foldlM_broadcastStep_keys (sender : Addr) (L : List Message) :
    ∀ reg reg2 : Registry,
      L.foldlM (fun r m => broadcastStep r sender m) reg = .ok reg2 →
      reg2.map Prod.fst = reg.map Prod.fst := by
  induction L with
  | nil =>
    intro reg reg2 h
    simp only [List.foldlM_nil] at h
    cases h
    rfl
  | cons m rest ih =>
    intro reg reg2 h
    rw [List.foldlM_cons] at h
    cases hstep : broadcastStep reg sender m with
    | error e =>
      rw [hstep] at h
      simp [Bind.bind, Except.bind] at h
    | ok mid =>
      rw [hstep] at h
      simp only [Bind.bind, Except.bind] at h
      rw [ih mid reg2 h]
      exact broadcastStep_ok_keys reg mid sender m hstep

theorem broadcast_incoming_ok_keys (reg reg2 : Registry) (addr : Addr)
    (msgs : List Message) (h : broadcast_incoming reg addr msgs = .ok reg2) :
    reg2.map Prod.fst = reg.map Prod.fst := by
  unfold broadcast_incoming at h
  exact foldlM_broadcastStep_keys addr _ reg reg2 h


/-! Claim theorems. -/

theorem lookupChan_enqueueAllExceptSender_self (reg : Registry)
    (sender : Addr) (msgs : List Message) :
    lookupChan (enqueueAllExceptSender reg sender msgs) sender =
      lookupChan reg sender := by
  rw [enqueueAllExceptSender_eq_mapVal,
    lookupChan_mapVal reg
      (fun a c => if a = sender then c else ⟨c.queue ++ msgs, c.closed⟩)]
  cases lookupChan reg sender <;> simp

theorem lookupChan_enqueueAllExceptSender_other (reg : Registry)
    (sender : Addr) (msgs : List Message) (b : Addr) (hb : b ≠ sender) :
    lookupChan (enqueueAllExceptSender reg sender msgs) b =
      (lookupChan reg b).map
        (fun c => { c with queue := c.queue ++ msgs }) := by
  rw [enqueueAllExceptSender_eq_mapVal,
    lookupChan_mapVal reg
      (fun a c => if a = sender then c else ⟨c.queue ++ msgs, c.closed⟩)]
  cases lookupChan reg b <;> simp [hb]

/-- C1: for every broadcast invocation with (sender identity, message), the
message is enqueued onto the outbound channel of every peer present in the
peer map at the moment of the broadcast whose identity differs from the
sender, and is never enqueued onto the sender's own outbound channel.
Stated for a broadcast that completes without panicking: the logged
`to_text` succeeds and no recipient channel is torn down (the panicking
cases are the subject of C3 and C6). -/
theorem c1_broadcast_all_but_sender (reg : Registry) (sender : Addr)
    (msg : Message) (hmt : (Message.to_text msg).isSome = true)
    (hopen : ∀ p ∈ reg, p.1 ≠ sender → p.2.closed = false) :
    broadcastStep reg sender msg =
      .ok (enqueueExceptSender reg sender msg) ∧
    lookupChan (enqueueExceptSender reg sender msg) sender =
      lookupChan reg sender ∧
    ∀ b, b ≠ sender →
      lookupChan (enqueueExceptSender reg sender msg) b =
        (lookupChan reg b).map
          (fun c => { c with queue := c.queue ++ [msg] }) :=
  ⟨broadcastStep_ok_of_open reg sender msg hmt hopen,
   lookupChan_enqueueExceptSender_self reg sender msg,
   fun b hb => lookupChan_enqueueExceptSender_other reg sender msg b hb⟩

/-- Witness for C1 at a concrete peer map: peer 5 broadcasts to peers 7 and
9, both get the message, 5 does not. -/
theorem c1_witness :
    broadcastStep [(7, ⟨[], false⟩), (5, ⟨[], false⟩), (9, ⟨[], false⟩)] 5
        (Message.text "hello") =
      .ok [(7, ⟨[Message.text "hello"], false⟩), (5, ⟨[], false⟩),
           (9, ⟨[Message.text "hello"], false⟩)] := by
  have h := c1_broadcast_all_but_sender
    [(7, ⟨[], false⟩), (5, ⟨[], false⟩), (9, ⟨[], false⟩)] 5
    (Message.text "hello") (by decide) (by decide)
  rw [h.1]
  rfl


/-- C2: at every reachable state of the hub lifecycle, the peer map has at
most one entry per connection identity (no duplicate keys anywhere), and an
entry for an identity exists iff that connection has completed registration
(line 78) and has not yet run the cleanup (line 115); consequently the
registry size always equals the number of connections past Registered and
not yet Terminated. -/
theorem c2_registry_invariant (evs : List Event) :
    ((exec evs).conns.map Prod.fst).Nodup ∧
    (exec evs).registry.Nodup ∧
    (∀ a, a ∈ (exec evs).registry ↔
      lookupPhase (exec evs).conns a = some ConnPhase.registered) ∧
    (exec evs).registry.length = (registeredConns (exec evs)).length := by
  have h := Inv_exec evs
  exact ⟨h.1, h.2.1, h.2.2, registry_length_eq _ h⟩

/-- C3 counterexample: a delivery attempt to a peer whose outbound queue is
already torn down is not silently dropped — the broadcasting handler panics
(the `unbounded_send(..).unwrap()` at line 102), so the broadcast does not
continue normally. -/
theorem c3_counterexample :
    broadcastStep [(1, ⟨[], true⟩)] 0 (Message.text "hi") = .error () := rfl

/-- C3 as amended: if any recipient other than the sender has a torn-down
outbound queue, the broadcast invocation panics (`.error ()`) instead of
skipping that recipient. -/
theorem c3_send_to_torn_down_panics (reg : Registry) (sender : Addr)
    (msg : Message) (p : Addr × Channel)
    (hmt : (Message.to_text msg).isSome = true)
    (hp : p ∈ reg) (hs : p.1 ≠ sender) (hc : p.2.closed = true) :
    broadcastStep reg sender msg = .error () := by
  unfold broadcastStep
  rcases ht : Message.to_text msg with _ | t
  · simp [ht] at hmt
  · exact sendAll_error_of_closed reg sender msg p hp hs hc

/-- Witness for C3 at a concrete peer map with one torn-down recipient. -/
theorem c3_witness :
    broadcastStep [(1, ⟨[], true⟩), (2, ⟨[], false⟩)] 0 (Message.text "x") =
      .error () :=
  c3_send_to_torn_down_panics [(1, ⟨[], true⟩), (2, ⟨[], false⟩)] 0
    (Message.text "x") (1, ⟨[], true⟩) (by decide) (by decide) (by decide)
    (by decide)

/-- C4 counterexample: after a single failed accept attempt, the accept loop
does not continue — the subsequent successful accept (connection 7) is never
handled, because `while let Ok(..)` exits the loop on the first `Err`, and
`run` returns `Ok(())`. -/
theorem c4_counterexample :
    run true [AcceptResult.err, AcceptResult.ok 7] = .ok [] ∧
    accept_loop [AcceptResult.err, AcceptResult.ok 7] = [] :=
  ⟨rfl, rfl⟩

/-- C4 as amended: the accept loop handles exactly the connections accepted
before the first failed accept attempt; the first accept failure terminates
the loop and `run` returns normally.  Only a bind failure is fatal (the
`expect` panic, `.error ()`). -/
theorem c4_accept_loop_stops_at_first_error (bindOk : Bool)
    (accepts : List AcceptResult) :
    run bindOk accepts =
      (if bindOk then
        .ok ((accepts.takeWhile isOkAccept).filterMap connOf)
       else .error ()) := by
  cases bindOk with
  | true => simp [run, accept_loop_eq]
  | false => simp [run]


/-- C5: a close-type message received from a peer is never enqueued onto any
other peer's outbound channel.  First conjunct: an inbound stream ending in a
close frame broadcasts exactly what the stream without it broadcasts (the
close is treated as pure termination, relaying nothing; the WebSocket stream
yields nothing after a close frame).  Second conjunct: if no queue holds a
close-type message, then after the inbound direction runs, still no queue
holds one. -/
theorem c5_close_never_relayed (reg : Registry) (addr : Addr)
    (msgs : List Message) (f : Option String) :
    broadcast_incoming reg addr (msgs ++ [Message.close f]) =
      broadcast_incoming reg addr msgs ∧
    (noCloseInQueues reg = true →
      ∀ reg2, broadcast_incoming reg addr msgs = .ok reg2 →
        noCloseInQueues reg2 = true) := by
  constructor
  · unfold broadcast_incoming
    rw [List.filter_append]
    simp [Message.is_close]
  · intro hreg reg2 h
    unfold broadcast_incoming at h
    refine foldlM_broadcastStep_noClose addr _ reg reg2 ?_ hreg h
    intro m hm
    have h2 := List.of_mem_filter hm
    simpa using h2

/-- Witness for C5 at a concrete peer map and stream. -/
theorem c5_witness :
    broadcast_incoming [(1, ⟨[], false⟩)] 0
        ([Message.text "a"] ++ [Message.close none]) =
      broadcast_incoming [(1, ⟨[], false⟩)] 0 [Message.text "a"] ∧
    noCloseInQueues [(1, ⟨[Message.text "a"], false⟩)] = true := by
  have h := c5_close_never_relayed [(1, ⟨[], false⟩)] 0 [Message.text "a"] none
  exact ⟨h.1, h.2 (by decide) [(1, ⟨[Message.text "a"], false⟩)] (by rfl)⟩

/-- C6 counterexample: a binary message whose payload is not valid UTF-8 is a
non-close message, yet it is not relayed: the handler panics in the logging
statement (`msg.to_text().unwrap()`, line 92) before any delivery. -/
theorem c6_counterexample :
    broadcast_incoming [(1, ⟨[], false⟩)] 0 [Message.binary [0xFF]] =
      .error () := rfl

/-- C6 as amended: every non-close message whose payload is valid UTF-8 text
is relayed verbatim — a text frame always, and a binary frame (likewise a
ping/pong frame, whose payload `to_text` converts the same way) when its
bytes are valid UTF-8 — with the messages from one sender enqueued for each
receiver in the sender's order (per-sender FIFO); a non-close message whose
payload is not valid UTF-8, such as a non-UTF-8 binary frame, makes the
handler panic in its logging statement (`msg.to_text().unwrap()`, line 92)
and is not relayed (see the counterexample). -/
theorem c6_relay_verbatim_fifo (reg : Registry) (sender : Addr)
    (msgs : List Message)
    (hmt : ∀ m ∈ msgs.filter (fun m => !m.is_close),
      (Message.to_text m).isSome = true)
    (hopen : ∀ p ∈ reg, p.1 ≠ sender → p.2.closed = false) :
    broadcast_incoming reg sender msgs =
      .ok (enqueueAllExceptSender reg sender
        (msgs.filter (fun m => !m.is_close))) ∧
    lookupChan (enqueueAllExceptSender reg sender
        (msgs.filter (fun m => !m.is_close))) sender =
      lookupChan reg sender ∧
    ∀ b, b ≠ sender →
      lookupChan (enqueueAllExceptSender reg sender
          (msgs.filter (fun m => !m.is_close))) b =
        (lookupChan reg b).map (fun c =>
          { c with queue := c.queue ++ msgs.filter (fun m => !m.is_close) }) :=
  ⟨foldlM_broadcastStep_ok sender (msgs.filter (fun m => !m.is_close)) reg
      hmt hopen,
   lookupChan_enqueueAllExceptSender_self reg sender _,
   fun b hb => lookupChan_enqueueAllExceptSender_other reg sender _ b hb⟩

/-- Witness for C6: a text stream containing a close in the middle is relayed
to the other peer in order, close excluded, sender untouched. -/
theorem c6_witness :
    broadcast_incoming [(1, ⟨[], false⟩), (0, ⟨[], false⟩)] 0
        [Message.text "a", Message.close none, Message.text "b"] =
      .ok [(1, ⟨[Message.text "a", Message.text "b"], false⟩),
           (0, ⟨[], false⟩)] := by
  have h := c6_relay_verbatim_fifo [(1, ⟨[], false⟩), (0, ⟨[], false⟩)] 0
    [Message.text "a", Message.close none, Message.text "b"]
    (by decide) (by decide)
  rw [h.1]
  rfl


/-- C7 counterexample: in the broadcast of lines 94-106 the mutex guard is
not released before the enqueues — with one recipient, a send action occurs
while the guard is held (before any unlock in the trace). -/
theorem c7_counterexample :
    (whileLocked (broadcastActions [(1, ⟨[], false⟩)] 0)).any
      LockAction.isSend = true := rfl

/-- C7 as amended: the guard acquired at line 94 is held across the whole
enqueue loop.  The locked section of the broadcast trace consists of the
acquisition followed by exactly one send per non-sender entry (all sends are
under the guard, and their count equals the number of non-sender peers), and
the guard is released only at the very end of the invocation. -/
theorem c7_guard_held_across_sends (reg : Registry) (sender : Addr) :
    whileLocked (broadcastActions reg sender) =
      LockAction.lock :: reg.filterMap (fun p =>
        if p.1 = sender then none else some (LockAction.send p.1)) ∧
    ((whileLocked (broadcastActions reg sender)).filter
        LockAction.isSend).length =
      (reg.filter (fun p => p.1 ≠ sender)).length ∧
    (broadcastActions reg sender).getLast? = some LockAction.unlock :=
  ⟨whileLocked_broadcastActions reg sender,
   countSends_whileLocked reg sender,
   getLast_broadcastActions reg sender⟩

/-- C8: a handshake failure (the `expect` panic at line 73) aborts the
connection before any peer-map mutation: the map is exactly what it was, the
handler never reaches Registered, and hence no other connection's entry is
affected.  On handshake success the handler does register. -/
theorem c8_handshake_failure_aborts_before_mutation (reg : Registry)
    (addr : Addr) (ch : Channel) :
    (connectPhase false reg addr ch).registry = reg ∧
    (connectPhase false reg addr ch).registered = false ∧
    (connectPhase true reg addr ch).registered = true :=
  ⟨rfl, rfl, rfl⟩

/-- C9 counterexample: a reachable error path on which the Terminated
cleanup executes zero times, not once.  A single non-UTF-8 binary frame from
the peer panics the handler at the line-92 `to_text().unwrap()` before the
peer map is touched; the panic unwinds the task past line 115, no removal
runs, and the just-registered entry for peer 0 is leaked. -/
theorem c9_counterexample :
    broadcast_incoming [(0, ⟨[], false⟩), (1, ⟨[], false⟩)] 0
        [Message.binary [0xFF]] = .error () ∧
    cleanupCount [(0, ⟨[], false⟩), (1, ⟨[], false⟩)] 0
        [Message.binary [0xFF]] = 0 :=
  ⟨rfl, rfl⟩

/-- C9 as amended: the cleanup removal (line 115) executes exactly once for
every termination that goes through `future::select` — whichever relay
direction ended the select, and however it ended — and it is idempotent:
removing twice equals removing once, removing an absent identity is a no-op,
and no other identity's entry is touched.  But when the inbound closure
panics (line 92 or line 103), the task unwinds before line 115: the cleanup
executes zero times, and since broadcasting never adds or removes entries
(the key set is preserved), the connection's entry is never removed — it
leaks. -/
theorem c9_cleanup_once_unless_panic (reg : Registry) (addr : Addr)
    (msgs : List Message) (d d2 : DirectionEnd) :
    (∀ reg2, broadcast_incoming reg addr msgs = .ok reg2 →
      cleanupCount reg addr msgs = 1 ∧
      reg2.map Prod.fst = reg.map Prod.fst) ∧
    (broadcast_incoming reg addr msgs = .error () →
      cleanupCount reg addr msgs = 0) ∧
    afterRelay reg addr d = afterRelay reg addr d2 ∧
    removePeer (removePeer reg addr) addr = removePeer reg addr ∧
    (lookupChan reg addr = none → removePeer reg addr = reg) ∧
    ∀ b, b ≠ addr →
      lookupChan (removePeer reg addr) b = lookupChan reg b := by
  refine ⟨?_, ?_, rfl, removePeer_removePeer reg addr,
    fun h => removePeer_of_absent reg addr h,
    fun b hb => lookupChan_removePeer_other reg addr b hb⟩
  · intro reg2 h
    refine ⟨?_, broadcast_incoming_ok_keys reg reg2 addr msgs h⟩
    unfold cleanupCount
    rw [h]
  · intro h
    unfold cleanupCount
    rw [h]

/-- Witness for C9 at concrete maps: a select-path termination cleans up
exactly once, a panic path cleans up zero times, removing an absent identity
is a no-op, and removal of one identity preserves another's entry. -/
theorem c9_witness :
    cleanupCount [(3, ⟨[], false⟩)] 3 [Message.text "a"] = 1 ∧
    cleanupCount [(5, ⟨[], false⟩), (6, ⟨[], false⟩)] 5
      [Message.binary [0xFE]] = 0 ∧
    removePeer [(3, ⟨[], false⟩)] 9 = [(3, ⟨[], false⟩)] ∧
    lookupChan (removePeer [(3, ⟨[], false⟩), (4, ⟨[], false⟩)] 4) 3 =
      some ⟨[], false⟩ := by
  have h1 := c9_cleanup_once_unless_panic [(3, ⟨[], false⟩)] 3
    [Message.text "a"] DirectionEnd.inboundClose DirectionEnd.inboundReadError
  have h2 := c9_cleanup_once_unless_panic [(5, ⟨[], false⟩), (6, ⟨[], false⟩)] 5
    [Message.binary [0xFE]] DirectionEnd.inboundClose DirectionEnd.inboundClose
  have h3 := c9_cleanup_once_unless_panic [(3, ⟨[], false⟩)] 9 []
    DirectionEnd.inboundClose DirectionEnd.inboundClose
  have h4 := c9_cleanup_once_unless_panic [(3, ⟨[], false⟩), (4, ⟨[], false⟩)] 4
    [] DirectionEnd.outboundQueueClosed DirectionEnd.outboundWriteError
  refine ⟨(h1.1 [(3, ⟨[], false⟩)] rfl).1, h2.2.1 rfl,
    h3.2.2.2.2.1 (by decide), ?_⟩
  rw [h4.2.2.2.2.2 3 (by decide)]
  rfl

/-- C10: every lock site unwraps the poisoning result, so a panic of one
handler while it holds the guard (e.g. an `unbounded_send` unwrap failing in
the broadcast loop) poisons the mutex, after which every registry access of
every handler — registration, broadcast, cleanup — panics as well. -/
theorem c10_poison_cascades (m : LockedMap) (sender addr : Addr)
    (msg : Message) (ch : Channel) :
    (m.poisoned = false → sendAll m.peers sender msg = .error () →
      ((broadcast_access m sender msg).2.poisoned = true ∧
       (broadcast_access m sender msg).1 = .error ())) ∧
    (m.poisoned = true →
      register_access m addr ch = .error () ∧
      (broadcast_access m sender msg).1 = .error () ∧
      deregister_access m addr = .error ()) := by
  constructor
  · intro hp hsend
    unfold broadcast_access lock_unwrap
    rw [hp]
    simp [hsend]
  · intro hp
    unfold register_access broadcast_access deregister_access lock_unwrap
    rw [hp]
    simp [Except.map]

/-- Witness for C10: a failing send under the guard poisons the mutex, and
on a poisoned mutex the registration access panics. -/
theorem c10_witness :
    (broadcast_access ⟨false, [(1, ⟨[], true⟩)]⟩ 0 (Message.text "x")).2.poisoned
      = true ∧
    register_access ⟨true, []⟩ 2 ⟨[], false⟩ = .error () := by
  have h1 := c10_poison_cascades ⟨false, [(1, ⟨[], true⟩)]⟩ 0 2
    (Message.text "x") ⟨[], false⟩
  have h2 := c10_poison_cascades ⟨true, []⟩ 0 2 (Message.text "x") ⟨[], false⟩
  exact ⟨(h1.1 rfl rfl).1, (h2.2 rfl).1⟩

end Hub
